import Mathlib

/-!
Shallow embedding of the core of `plhwtools` (Plastic Logic hardware tools):
the power sequencing procedures (`power_on_seq0`, `power_off_seq0`,
`get_power_seq`, `run_power`) and the EEPROM transfer engine
(`rw_file_eeprom`, `pad_eeprom`, `full_rw_eeprom`, `log_eeprom_progress`).

Device primitives (CPLD switch bank, MAX17135 PMIC, DAC5820, EEPROM, POSIX
read/write) are external collaborators; they are modelled as oracles giving
the integer return value of each primitive call.
-/

/-- The CPLD switch lines used by the power sequences. -/
inductive CpldSwitch
  | BPCOM_CLAMP
  | HVEN
  | COM_SW_CLOSE
  | COM_SW_EN
  | COM_PSU
deriving DecidableEq, Repr

/-- DAC5820 channel identifiers (`DAC5820_CH_A` / `DAC5820_CH_B`). -/
inductive DacChannel
  | A
  | B
deriving DecidableEq, Repr

/-- DAC5820 power modes: on, off floating, off with 100K pulldown. -/
inductive DacPow
  | pow_on
  | pow_off_float
  | pow_off_100K
deriving DecidableEq, Repr

/-- `#define DAC_CH DAC5820_CH_A` -/
def DAC_CH : DacChannel := .A

/-- `#define DAC_ON DAC5820_POW_ON` -/
def DAC_ON : DacPow := .pow_on

/-- `#define DAC_OFF DAC5820_POW_OFF_100K` -/
def DAC_OFF : DacPow := .pow_off_100K

/-- One device-primitive invocation made by a power-sequence step. -/
inductive PrimCall
  | cpldSet (sw : CpldSwitch) (val : Int)
  | waitForPok
  | dacOutput (ch : DacChannel) (value : Int)
  | dacSetPower (ch : DacChannel) (mode : DacPow)
deriving DecidableEq, Repr

/-- Oracle giving the integer return value of each device primitive
(negative means failure, as in the C sources). -/
abbrev DevEnv := PrimCall → Int

/-- Outcome of a power sequence: success, missing device handle
(`require_cpld` / `require_max17135` returned NULL), or a failed step
carrying its log label and the primitive's negative return code. -/
inductive SeqOutcome
  | ok
  | initFailure
  | stepFailure (label : String) (code : Int)
deriving DecidableEq, Repr

/-- The `STEP(cmd, msg)` macro iterated over a list of labelled primitive
calls: each call runs in order; a negative result returns immediately with
that step's label and code; otherwise the next step runs.  The first
component is the list of primitive calls actually made. -/
def runSteps (env : DevEnv) : List (String × PrimCall) → List PrimCall × SeqOutcome
  | [] => ([], .ok)
  | (label, call) :: rest =>
    let res := env call
    if res < 0 then
      ([call], .stepFailure label res)
    else
      let r := runSteps env rest
      (call :: r.1, r.2)

/-- The nine labelled steps of `power_on_seq0`, in source order. -/
def power_on_steps (vcom : Int) : List (String × PrimCall) :=
  [ ("BPCOM clamp", .cpldSet .BPCOM_CLAMP 1),
    ("HV enable", .cpldSet .HVEN 1),
    ("wait for POK", .waitForPok),
    ("COM open", .cpldSet .COM_SW_CLOSE 0),
    ("COM enable", .cpldSet .COM_SW_EN 1),
    ("COM PSU on", .cpldSet .COM_PSU 1),
    ("VCOM DAC value", .dacOutput .A vcom),
    ("DAC power on", .dacSetPower DAC_CH DAC_ON),
    ("COM close", .cpldSet .COM_SW_CLOSE 1) ]

/-- The five labelled steps of `power_off_seq0`, in source order. -/
def power_off_steps : List (String × PrimCall) :=
  [ ("COM open", .cpldSet .COM_SW_CLOSE 0),
    ("COM disable", .cpldSet .COM_SW_EN 0),
    ("DAC power off", .dacSetPower DAC_CH DAC_OFF),
    ("COM PSU off", .cpldSet .COM_PSU 0),
    ("HV disable", .cpldSet .HVEN 0) ]

/-- Availability of the lazily initialised device handles in `struct ctx`
(`require_cpld` / `require_max17135` / `require_dac` success). -/
structure Ctx where
  cpldOk : Bool
  max17135Ok : Bool
  dacOk : Bool
deriving DecidableEq, Repr

/-- `power_on_seq0`: returns -1 if the CPLD or MAX17135 handle is missing,
otherwise runs the nine steps fail-fast. -/
def power_on_seq0 (ctx : Ctx) (env : DevEnv) (vcom : Int) : List PrimCall × SeqOutcome :=
  if ctx.cpldOk && ctx.max17135Ok then
    runSteps env (power_on_steps vcom)
  else
    ([], .initFailure)

/-- `power_off_seq0`: returns -1 if the CPLD handle is missing (the DAC
handle is not checked in the source), otherwise runs the five steps
fail-fast. -/
def power_off_seq0 (ctx : Ctx) (env : DevEnv) : List PrimCall × SeqOutcome :=
  if ctx.cpldOk then
    runSteps env power_off_steps
  else
    ([], .initFailure)

example : power_on_seq0 ⟨true, true, true⟩ (fun _ => 0) 7 =
    ((power_on_steps 7).map Prod.snd, .ok) := by decide

example : power_on_seq0 ⟨true, true, true⟩
    (fun c => if c = .waitForPok then -1 else 0) 7 =
    ([.cpldSet .BPCOM_CLAMP 1, .cpldSet .HVEN 1, .waitForPok],
      .stepFailure "wait for POK" (-1)) := by decide

theorem runSteps_all_ok (env : DevEnv) : ∀ (steps : List (String × PrimCall)),
    (∀ p ∈ steps, 0 ≤ env p.2) → runSteps env steps = (steps.map Prod.snd, .ok)
  | [], _ => rfl
  | (l, c) :: tl, h => by
    have hc : 0 ≤ env c := h (l, c) (List.mem_cons_self _ _)
    have ih := runSteps_all_ok env tl (fun p hp => h p (List.mem_cons_of_mem _ hp))
    simp [runSteps, not_lt.mpr hc, ih]

theorem runSteps_ok_iff (env : DevEnv) : ∀ (steps : List (String × PrimCall)),
    (runSteps env steps).2 = .ok ↔ ∀ p ∈ steps, 0 ≤ env p.2
  | [] => by simp [runSteps]
  | (l, c) :: tl => by
    by_cases hc : env c < 0
    · simp only [runSteps, if_pos hc]
      constructor
      · intro h; exact absurd h (by simp)
      · intro h; exact absurd hc (not_lt.mpr (h (l, c) (List.mem_cons_self _ _)))
    · simp [runSteps, hc, runSteps_ok_iff env tl, not_lt.mp hc]

theorem runSteps_fail_at (env : DevEnv) :
    ∀ (steps : List (String × PrimCall)) (i : Nat) (hi : i < steps.length),
    (∀ j (hj : j < i), 0 ≤ env (steps.get ⟨j, Nat.lt_trans hj hi⟩).2) →
    env (steps.get ⟨i, hi⟩).2 < 0 →
    runSteps env steps =
      ((steps.take (i + 1)).map Prod.snd,
        .stepFailure (steps.get ⟨i, hi⟩).1 (env (steps.get ⟨i, hi⟩).2))
  | [], i, hi, _, _ => absurd hi (by simp)
  | (l, c) :: tl, 0, hi, _, hfail => by
    have hf : env c < 0 := hfail
    show runSteps env ((l, c) :: tl) = ([c], .stepFailure l (env c))
    simp [runSteps, hf]
  | (l, c) :: tl, (i + 1), hi, hpre, hfail => by
    have hc : 0 ≤ env c := hpre 0 (Nat.succ_pos i)
    have ih := runSteps_fail_at env tl i (Nat.lt_of_succ_lt_succ hi)
      (fun j hj => hpre (j + 1) (Nat.succ_lt_succ hj)) hfail
    simp [runSteps, not_lt.mpr hc, ih]

theorem runSteps_trace_subset (env : DevEnv) : ∀ (steps : List (String × PrimCall)),
    ∀ c ∈ (runSteps env steps).1, c ∈ steps.map Prod.snd
  | [] => by simp [runSteps]
  | (l, c) :: tl => by
    by_cases hc : env c < 0
    · simp [runSteps, hc]
    · intro x hx
      simp only [runSteps, if_neg hc] at hx
      rcases List.mem_cons.mp hx with h | h
      · simp [h]
      · exact List.mem_cons_of_mem _ (runSteps_trace_subset env tl x h)

/-- C1: In every power-on or power-off run with the required device handles
available, if the underlying primitive of step `i` returns a negative value
while every earlier step succeeded, then exactly steps `0..i` are executed
(no step after `i` runs, no step is retried), the procedure returns a
failure carrying that step's negative code, and the reported label is
exactly step `i`'s label. -/
theorem power_seq_fail_fast (ctx : Ctx) (env : DevEnv) (vcom : Int) (i : Nat) :
    (ctx.cpldOk = true → ctx.max17135Ok = true →
      ∀ (hi : i < (power_on_steps vcom).length),
      (∀ j (hj : j < i), 0 ≤ env ((power_on_steps vcom).get ⟨j, Nat.lt_trans hj hi⟩).2) →
      env ((power_on_steps vcom).get ⟨i, hi⟩).2 < 0 →
      power_on_seq0 ctx env vcom =
        (((power_on_steps vcom).take (i + 1)).map Prod.snd,
          .stepFailure ((power_on_steps vcom).get ⟨i, hi⟩).1
            (env ((power_on_steps vcom).get ⟨i, hi⟩).2)))
  ∧ (ctx.cpldOk = true →
      ∀ (hi : i < power_off_steps.length),
      (∀ j (hj : j < i), 0 ≤ env (power_off_steps.get ⟨j, Nat.lt_trans hj hi⟩).2) →
      env (power_off_steps.get ⟨i, hi⟩).2 < 0 →
      power_off_seq0 ctx env =
        ((power_off_steps.take (i + 1)).map Prod.snd,
          .stepFailure (power_off_steps.get ⟨i, hi⟩).1
            (env (power_off_steps.get ⟨i, hi⟩).2))) := by
  constructor
  · intro hc hm hi hpre hfail
    have h0 : power_on_seq0 ctx env vcom = runSteps env (power_on_steps vcom) := by
      simp [power_on_seq0, hc, hm]
    rw [h0]
    exact runSteps_fail_at env _ i hi hpre hfail
  · intro hc hi hpre hfail
    have h0 : power_off_seq0 ctx env = runSteps env power_off_steps := by
      simp [power_off_seq0, hc]
    rw [h0]
    exact runSteps_fail_at env _ i hi hpre hfail

/-- C1 witness: a failure injected at step 3 of power-on ("wait for POK")
executes only the first three primitives — in particular no DAC primitive —
and reports the label "wait for POK" with the failing code. -/
theorem power_seq_fail_fast_witness :
    power_on_seq0 ⟨true, true, true⟩ (fun c => if c = .waitForPok then -1 else 0) 128 =
      ([.cpldSet .BPCOM_CLAMP 1, .cpldSet .HVEN 1, .waitForPok],
        .stepFailure "wait for POK" (-1)) := by
  have h := (power_seq_fail_fast ⟨true, true, true⟩
      (fun c => if c = .waitForPok then -1 else 0) 128 2).1 rfl rfl (by decide)
      (by decide) (by decide)
  exact h.trans (by decide)

/-- C2: with the CPLD and MAX17135 handles available, `power_on_seq0`
succeeds iff all nine primitives succeed, and in a fully successful run it
invokes exactly the nine listed device operations in this order: BPCOM
clamp, HV enable, wait for POK, COM open, COM enable, COM PSU on, DAC
output of the vcom value, DAC power on, COM close. -/
theorem power_on_seq0_calls (ctx : Ctx) (env : DevEnv) (vcom : Int)
    (hc : ctx.cpldOk = true) (hm : ctx.max17135Ok = true) :
    ((power_on_seq0 ctx env vcom).2 = .ok ↔ ∀ p ∈ power_on_steps vcom, 0 ≤ env p.2)
  ∧ ((∀ p ∈ power_on_steps vcom, 0 ≤ env p.2) →
      power_on_seq0 ctx env vcom =
        ([.cpldSet .BPCOM_CLAMP 1, .cpldSet .HVEN 1, .waitForPok,
          .cpldSet .COM_SW_CLOSE 0, .cpldSet .COM_SW_EN 1, .cpldSet .COM_PSU 1,
          .dacOutput .A vcom, .dacSetPower .A .pow_on, .cpldSet .COM_SW_CLOSE 1],
          .ok)) := by
  have h0 : power_on_seq0 ctx env vcom = runSteps env (power_on_steps vcom) := by
    simp [power_on_seq0, hc, hm]
  constructor
  · rw [h0]; exact runSteps_ok_iff env _
  · intro h
    rw [h0, runSteps_all_ok env _ h]
    rfl

/-- C2 witness: a concrete all-successful power-on run with vcom 42. -/
theorem power_on_seq0_calls_witness :
    ((power_on_seq0 ⟨true, true, true⟩ (fun _ => 0) 42).2 = .ok ↔
      ∀ p ∈ power_on_steps 42, (0 : Int) ≤ (fun _ => (0 : Int)) p.2)
  ∧ ((∀ p ∈ power_on_steps 42, (0 : Int) ≤ (fun _ => (0 : Int)) p.2) →
      power_on_seq0 ⟨true, true, true⟩ (fun _ => 0) 42 =
        ([.cpldSet .BPCOM_CLAMP 1, .cpldSet .HVEN 1, .waitForPok,
          .cpldSet .COM_SW_CLOSE 0, .cpldSet .COM_SW_EN 1, .cpldSet .COM_PSU 1,
          .dacOutput .A 42, .dacSetPower .A .pow_on, .cpldSet .COM_SW_CLOSE 1],
          .ok)) :=
  power_on_seq0_calls ⟨true, true, true⟩ (fun _ => 0) 42 rfl rfl

/-- C3: with the CPLD handle available, `power_off_seq0` succeeds iff all
five primitives succeed; a fully successful run invokes exactly: COM open,
COM disable, DAC power off with the 100K weak-pulldown mode (not the
floating mode), COM PSU off, HV disable; and no run of it ever performs a
BPCOM-clamp operation or a power-OK wait. -/
theorem power_off_seq0_calls (ctx : Ctx) (env : DevEnv) (hc : ctx.cpldOk = true) :
    ((power_off_seq0 ctx env).2 = .ok ↔ ∀ p ∈ power_off_steps, 0 ≤ env p.2)
  ∧ ((∀ p ∈ power_off_steps, 0 ≤ env p.2) →
      power_off_seq0 ctx env =
        ([.cpldSet .COM_SW_CLOSE 0, .cpldSet .COM_SW_EN 0,
          .dacSetPower .A .pow_off_100K, .cpldSet .COM_PSU 0, .cpldSet .HVEN 0],
          .ok))
  ∧ (∀ c ∈ (power_off_seq0 ctx env).1,
      c ≠ .waitForPok ∧ ∀ b, c ≠ .cpldSet .BPCOM_CLAMP b) := by
  have h0 : power_off_seq0 ctx env = runSteps env power_off_steps := by
    simp [power_off_seq0, hc]
  refine ⟨?_, ?_, ?_⟩
  · rw [h0]; exact runSteps_ok_iff env _
  · intro h
    rw [h0, runSteps_all_ok env _ h]
    rfl
  · intro c hcmem
    rw [h0] at hcmem
    have hmem := runSteps_trace_subset env _ c hcmem
    fin_cases hmem <;> exact ⟨by simp, fun b => by simp⟩

/-- C3 witness: a concrete all-successful power-off run. -/
theorem power_off_seq0_calls_witness :
    (((power_off_seq0 ⟨true, true, true⟩ (fun _ => 0)).2 = .ok ↔
      ∀ p ∈ power_off_steps, (0 : Int) ≤ (fun _ => (0 : Int)) p.2))
  ∧ ((∀ p ∈ power_off_steps, (0 : Int) ≤ (fun _ => (0 : Int)) p.2) →
      power_off_seq0 ⟨true, true, true⟩ (fun _ => 0) =
        ([.cpldSet .COM_SW_CLOSE 0, .cpldSet .COM_SW_EN 0,
          .dacSetPower .A .pow_off_100K, .cpldSet .COM_PSU 0, .cpldSet .HVEN 0],
          .ok))
  ∧ (∀ c ∈ (power_off_seq0 ⟨true, true, true⟩ (fun _ => 0)).1,
      c ≠ .waitForPok ∧ ∀ b, c ≠ .cpldSet .BPCOM_CLAMP b) :=
  power_off_seq0_calls ⟨true, true, true⟩ (fun _ => 0) rfl

/-- One entry of the `seqs` power-sequence table: a name and the
`MAX17135_NB_TIMINGS` (8) timing bytes.  The table entry also binds the
`on`/`off` procedures; in the configured table the single entry binds
`power_on_seq0` and `power_off_seq0`, which callers invoke directly. -/
structure PowerSeq where
  name : String
  timing : List Nat
deriving DecidableEq, Repr

/-- The configured `seqs` table (the C NULL-name terminator is the end of
the list). -/
def seqs : List PowerSeq := [⟨"seq0", [8, 2, 11, 3, 0, 0, 0, 0]⟩]

/-- `get_power_seq`: with no argument, the first configured sequence (NULL
if the table is empty); with a name, a linear search of `seqs` by exact
string match, NULL (`none`) if no entry matches. -/
def get_power_seq (args : List String) : Option PowerSeq :=
  match args with
  | [] => seqs.head?
  | seq_name :: _ => seqs.find? (fun s => s.name == seq_name)

/-- C9: sequence resolution with no name returns the first configured
sequence (`seq0`); with a name it linear-searches `seqs` by exact string
match and returns `none` exactly when no entry matches; and every sequence
it can return has a timing profile of exactly 8 entries, each in 0..255. -/
theorem get_power_seq_spec :
    (get_power_seq [] = seqs.head? ∧
      get_power_seq [] = some ⟨"seq0", [8, 2, 11, 3, 0, 0, 0, 0]⟩)
  ∧ (∀ seq_name rest, get_power_seq (seq_name :: rest) = none ↔
      ∀ s ∈ seqs, s.name ≠ seq_name)
  ∧ (∀ seq_name rest s, get_power_seq (seq_name :: rest) = some s →
      s ∈ seqs ∧ s.name = seq_name)
  ∧ (∀ args s, get_power_seq args = some s →
      s.timing.length = 8 ∧ ∀ t ∈ s.timing, t ≤ 255) := by
  refine ⟨⟨rfl, rfl⟩, ?_, ?_, ?_⟩
  · intro seq_name rest
    simp [get_power_seq, List.find?_eq_none]
  · intro seq_name rest s h
    simp only [get_power_seq] at h
    refine ⟨List.mem_of_find?_eq_some h, ?_⟩
    have := List.find?_some h
    exact eq_of_beq this
  · intro args s h
    have hs : s = ⟨"seq0", [8, 2, 11, 3, 0, 0, 0, 0]⟩ := by
      cases args with
      | nil =>
        simp only [get_power_seq, seqs, List.head?, Option.some.injEq] at h
        exact h.symm
      | cons a rest =>
        simp only [get_power_seq] at h
        have := List.mem_of_find?_eq_some h
        simpa [seqs] using this
    subst hs
    exact ⟨rfl, by decide⟩

/-- C9 witness: the default resolution and an unknown name, plus the timing
profile shape of the sequence returned by default. -/
theorem get_power_seq_spec_witness :
    ((⟨"seq0", [8, 2, 11, 3, 0, 0, 0, 0]⟩ : PowerSeq).timing.length = 8 ∧
      ∀ t ∈ (⟨"seq0", [8, 2, 11, 3, 0, 0, 0, 0]⟩ : PowerSeq).timing, t ≤ 255)
  ∧ get_power_seq ["bogus"] = none :=
  ⟨get_power_seq_spec.2.2.2 [] ⟨"seq0", [8, 2, 11, 3, 0, 0, 0, 0]⟩ (by decide),
    (get_power_seq_spec.2.1 "bogus" []).mpr (by decide)⟩

/-- `get_on_off_opt`: "on" gives 1, "off" gives 0, anything else -1. -/
def get_on_off_opt (on_off : String) : Int :=
  if on_off = "on" then 1
  else if on_off = "off" then 0
  else -1

/-- `run_power`: parses the on/off argument, resolves the sequence from the
remaining arguments, selects the VCOM value (default 128; an out-of-range
`atoi(argv[2])` is only logged and replaced by the default), and runs the
resolved sequence's procedure.  `none` models the early `return -1` paths
for invalid arguments or an unknown sequence. -/
def run_power (ctx : Ctx) (env : DevEnv) (atoiF : String → Int)
    (args : List String) : Option (List PrimCall × SeqOutcome) :=
  match args with
  | [] => none
  | a0 :: rest =>
    let onv := get_on_off_opt a0
    if onv < 0 then none
    else
      match get_power_seq rest with
      | none => none
      | some _seq =>
        if onv ≠ 0 then
          let vcom : Int :=
            match args.get? 2 with
            | none => 128
            | some s =>
              let vcom_raw := atoiF s
              if vcom_raw < 0 ∨ 255 < vcom_raw then 128 else vcom_raw
          some (power_on_seq0 ctx env vcom)
        else
          some (power_off_seq0 ctx env)

/-- C10: a power-on invocation whose VCOM argument parses outside 0..255
does not fail: the invalid value is only logged and the full power-on
sequence runs with the default VCOM value 128. -/
theorem run_power_invalid_vcom (ctx : Ctx) (env : DevEnv) (atoiF : String → Int)
    (vs : String) (hraw : atoiF vs < 0 ∨ 255 < atoiF vs) :
    run_power ctx env atoiF ["on", "seq0", vs] = some (power_on_seq0 ctx env 128) := by
  simp [run_power, get_on_off_opt, get_power_seq, seqs, hraw]

/-- C10 witness: VCOM argument parsing to 300 still powers on with 128. -/
theorem run_power_invalid_vcom_witness :
    run_power ⟨true, true, true⟩ (fun _ => 0) (fun _ => 300) ["on", "seq0", "300"] =
      some (power_on_seq0 ⟨true, true, true⟩ (fun _ => 0) 128) :=
  run_power_invalid_vcom ⟨true, true, true⟩ (fun _ => 0) (fun _ => 300) "300"
    (Or.inr (by norm_num))

/-- Result of the device→sink (`e2f`) direction of `rw_file_eeprom`: bytes
committed to the sink, number of chunk transfers started, and the C return
value. -/
structure E2FResult where
  sunk : Nat
  chunks : Nat
  ret : Int
deriving DecidableEq, Repr

/-- The device→sink loop of `rw_file_eeprom` (`write_file` true): while
bytes are left, the return value is 0 and the abort flag is clear, read a
chunk of `min left 4096` from the EEPROM and write it to the sink; a
negative primitive result sets the return value to -1 (stopping the loop);
`left` decreases by the full requested chunk size either way.  `er i` and
`fw i` are the results of the `eeprom_read` and POSIX `write` of iteration
`i`; a non-negative `fw i` commits that many bytes to the sink. -/
def rwE2FLoop (er fw : Nat → Int) (ab : Nat → Bool) (i left : Nat) (ret : Int)
    (sunk chunks : Nat) : E2FResult :=
  if h : left = 0 ∨ ret ≠ 0 ∨ ab i = true then
    ⟨sunk, chunks, ret⟩
  else
    let rwsz := min left 4096
    if er i < 0 then
      ⟨sunk, chunks + 1, -1⟩
    else if fw i < 0 then
      ⟨sunk, chunks + 1, -1⟩
    else
      rwE2FLoop er fw ab (i + 1) (left - rwsz) ret (sunk + (fw i).toNat) (chunks + 1)
termination_by left
decreasing_by
  simp only [not_or] at h
  omega

/-- `pad_eeprom`: writes `left` zero bytes to the EEPROM in chunks of
`min 64 left`, returning -1 on the first failed write.  The first component
lists the chunk sizes successfully written; `pw j` is the result of the
j-th padding `eeprom_write`. -/
def pad_eeprom (pw : Nat → Int) (j left : Nat) : List Nat × Int :=
  if h : left = 0 then ([], 0)
  else
    let n := min 64 left
    if pw j < 0 then ([], -1)
    else
      let r := pad_eeprom pw (j + 1) (left - n)
      (n :: r.1, r.2)
termination_by left
decreasing_by omega

/-- Result of the source→device (`f2e`) direction of `rw_file_eeprom`:
real data bytes written to the EEPROM, sizes of the zero-padding chunks
written, number of main-loop chunks started, and the C return value. -/
structure F2EResult where
  devBytes : Nat
  padChunks : List Nat
  chunks : Nat
  ret : Int
deriving DecidableEq, Repr

/-- The source→device loop of `rw_file_eeprom` (`write_file` false): read
up to `min left 4096` bytes from the source (`fr i`, negative = error),
write exactly the bytes read to the EEPROM (`ew i` is that write's
result); a full read decrements `left` by the chunk size; a short read
triggers zero padding of the remaining bytes when `zp` is set (`pw` is the
padding write oracle) and then ends the transfer with the pad result,
otherwise it ends the transfer early with return value 0. -/
def rwF2ELoop (fr ew pw : Nat → Int) (ab : Nat → Bool) (zp : Bool)
    (i left : Nat) (ret : Int) (dev chunks : Nat) : F2EResult :=
  if h : left = 0 ∨ ret ≠ 0 ∨ ab i = true then
    ⟨dev, [], chunks, ret⟩
  else
    let rwsz := min left 4096
    let rdsz := fr i
    if rdsz < 0 then
      ⟨dev, [], chunks + 1, -1⟩
    else if ew i < 0 then
      ⟨dev, [], chunks + 1, -1⟩
    else if rdsz.toNat = rwsz then
      rwF2ELoop fr ew pw ab zp (i + 1) (left - rwsz) ret (dev + rwsz) (chunks + 1)
    else if zp then
      let pr := pad_eeprom pw 0 (left - rdsz.toNat)
      ⟨dev + rdsz.toNat, pr.1, chunks + 1, pr.2⟩
    else
      ⟨dev + rdsz.toNat, [], chunks + 1, ret⟩
termination_by left
decreasing_by
  simp only [not_or] at h
  omega

theorem rwE2FLoop_exit (er fw : Nat → Int) (ab : Nat → Bool) (i left : Nat)
    (ret : Int) (sunk chunks : Nat) (h : left = 0 ∨ ret ≠ 0 ∨ ab i = true) :
    rwE2FLoop er fw ab i left ret sunk chunks = ⟨sunk, chunks, ret⟩ := by
  rw [rwE2FLoop, dif_pos h]

theorem rwE2FLoop_step (er fw : Nat → Int) (ab : Nat → Bool) (i left : Nat)
    (sunk chunks : Nat) (hab : ab i = false) (hl : 4096 ≤ left)
    (her : 0 ≤ er i) (hfw : 0 ≤ fw i) :
    rwE2FLoop er fw ab i left 0 sunk chunks =
      rwE2FLoop er fw ab (i + 1) (left - 4096) 0 (sunk + (fw i).toNat) (chunks + 1) := by
  have hg : ¬(left = 0 ∨ (0 : Int) ≠ 0 ∨ ab i = true) := by
    simp [hab]
    omega
  have hmin : min left 4096 = 4096 := by omega
  rw [rwE2FLoop, dif_neg hg]
  simp only [hmin, if_neg (not_lt.mpr her), if_neg (not_lt.mpr hfw)]

theorem rwE2FLoop_fail_step (er fw : Nat → Int) (ab : Nat → Bool) (i left : Nat)
    (sunk chunks : Nat) (hab : ab i = false) (hl : left ≠ 0)
    (h : er i < 0 ∨ (0 ≤ er i ∧ fw i < 0)) :
    rwE2FLoop er fw ab i left 0 sunk chunks = ⟨sunk, chunks + 1, -1⟩ := by
  have hg : ¬(left = 0 ∨ (0 : Int) ≠ 0 ∨ ab i = true) := by
    simp [hab, hl]
  rw [rwE2FLoop, dif_neg hg]
  rcases h with h | ⟨h1, h2⟩
  · simp only [if_pos h]
  · simp only [if_neg (not_lt.mpr h1), if_pos h2]

set_option maxRecDepth 4000 in
theorem rwE2FLoop_full_steps (er fw : Nat → Int) (ab : Nat → Bool) :
    ∀ (k i left sunk chunks : Nat),
    (∀ j, j < k → ab (i + j) = false) →
    (∀ j, j < k → 0 ≤ er (i + j)) →
    (∀ j, j < k → fw (i + j) = 4096) →
    k * 4096 < left →
    rwE2FLoop er fw ab i left 0 sunk chunks =
      rwE2FLoop er fw ab (i + k) (left - k * 4096) 0 (sunk + k * 4096) (chunks + k)
  | 0, i, left, sunk, chunks, _, _, _, _ => by simp
  | (k + 1), i, left, sunk, chunks, hab, her, hfw, hlt => by
    have hab0 : ab i = false := by simpa using hab 0 (Nat.succ_pos k)
    have her0 : 0 ≤ er i := by simpa using her 0 (Nat.succ_pos k)
    have hfw0 : fw i = 4096 := by simpa using hfw 0 (Nat.succ_pos k)
    have hstep := rwE2FLoop_step er fw ab i left sunk chunks hab0
      (by omega) her0 (by rw [hfw0]; norm_num)
    have htn : (fw i).toNat = 4096 := by rw [hfw0]; rfl
    rw [hstep, htn]
    have ih := rwE2FLoop_full_steps er fw ab k (i + 1) (left - 4096)
      (sunk + 4096) (chunks + 1)
      (fun j hj => by
        rw [show i + 1 + j = i + (j + 1) by omega]
        exact hab (j + 1) (Nat.succ_lt_succ hj))
      (fun j hj => by
        rw [show i + 1 + j = i + (j + 1) by omega]
        exact her (j + 1) (Nat.succ_lt_succ hj))
      (fun j hj => by
        rw [show i + 1 + j = i + (j + 1) by omega]
        exact hfw (j + 1) (Nat.succ_lt_succ hj))
      (by omega)
    have e1 : i + 1 + k = i + (k + 1) := by omega
    have e2 : left - 4096 - k * 4096 = left - (k + 1) * 4096 := by omega
    have e3 : sunk + 4096 + k * 4096 = sunk + (k + 1) * 4096 := by omega
    have e4 : chunks + 1 + k = chunks + (k + 1) := by omega
    rw [e1, e2, e3, e4] at ih
    exact ih

theorem rwE2FLoop_success_general (er fw : Nat → Int) (ab : Nat → Bool)
    (k i left sunk chunks : Nat)
    (hab : ∀ j, j ≤ k → ab (i + j) = false)
    (her : ∀ j, j ≤ k → 0 ≤ er (i + j))
    (hfw : ∀ j, j < k → fw (i + j) = 4096)
    (hlt : k * 4096 < left) (hle : left ≤ (k + 1) * 4096)
    (hlast : fw (i + k) = ((left - k * 4096 : Nat) : Int)) :
    rwE2FLoop er fw ab i left 0 sunk chunks = ⟨sunk + left, chunks + (k + 1), 0⟩ := by
  have h := rwE2FLoop_full_steps er fw ab k i left sunk chunks
    (fun j hj => hab j (Nat.le_of_lt hj)) (fun j hj => her j (Nat.le_of_lt hj)) hfw hlt
  rw [h]
  have habk : ab (i + k) = false := hab k (Nat.le_refl k)
  have herk : 0 ≤ er (i + k) := her k (Nat.le_refl k)
  have hg : ¬(left - k * 4096 = 0 ∨ (0 : Int) ≠ 0 ∨ ab (i + k) = true) := by
    simp [habk]
    omega
  have hmin : min (left - k * 4096) 4096 = left - k * 4096 := by omega
  have hnn : ¬((left - k * 4096 : Nat) : Int) < 0 := not_lt.mpr (Int.natCast_nonneg _)
  rw [rwE2FLoop, dif_neg hg]
  simp only [hmin, hlast, if_neg (not_lt.mpr herk), if_neg hnn, Int.toNat_natCast,
    if_pos rfl]
  rw [show left - k * 4096 - (left - k * 4096) = 0 by omega]
  rw [rwE2FLoop_exit er fw ab _ 0 0 _ _ (Or.inl rfl)]
  congr 1 <;> omega

/-- C4 (amended): if the abort flag becomes set after exactly `k` whole
4096-byte chunks of a larger device→sink transfer, the loop starts no
further chunk: exactly `k` chunk transfers ran and exactly `k*4096` bytes
were committed to the sink, and they stay committed.  The function's
return value, however, is 0 — the same value as a fully successful run —
so the abort is signalled by the persistent global flag and its log
message, not by a distinguished return value. -/
theorem rwE2FLoop_abort_after_k (er fw : Nat → Int) (ab : Nat → Bool) (k total : Nat)
    (hab : ∀ j, j < k → ab j = false) (habk : ab k = true)
    (her : ∀ j, j < k → 0 ≤ er j) (hfw : ∀ j, j < k → fw j = 4096)
    (hlt : k * 4096 < total) :
    rwE2FLoop er fw ab 0 total 0 0 0 = ⟨k * 4096, k, 0⟩ := by
  have h := rwE2FLoop_full_steps er fw ab k 0 total 0 0
    (fun j hj => by simpa using hab j hj)
    (fun j hj => by simpa using her j hj)
    (fun j hj => by simpa using hfw j hj) hlt
  refine h.trans ?_
  simp only [Nat.zero_add]
  exact rwE2FLoop_exit er fw ab k (total - k * 4096) 0 (k * 4096) k
    (Or.inr (Or.inr habk))

/-- C4 witness: abort raised after one full chunk of a 10000-byte
transfer: exactly 4096 bytes reached the sink and the return value is 0. -/
theorem rwE2FLoop_abort_after_k_witness :
    rwE2FLoop (fun _ => 0) (fun j => if j < 2 then 4096 else 1808)
      (fun j => decide (1 ≤ j)) 0 10000 0 0 0 = ⟨4096, 1, 0⟩ := by
  have h := rwE2FLoop_abort_after_k (fun _ => 0) (fun j => if j < 2 then 4096 else 1808)
    (fun j => decide (1 ≤ j)) 1 10000 (by decide) (by decide) (by decide) (by decide)
    (by norm_num)
  exact h.trans (by decide)

/-- C4 counterexample: the claim's "distinguished Aborted outcome" does not
exist in the code.  With every primitive succeeding, the run aborted after
the first 4096-byte chunk of a 10000-byte transfer returns the very same
value 0 that the fully successful (never aborted) run returns; only the
byte counts differ. -/
theorem rwE2FLoop_abort_not_distinguished :
    rwE2FLoop (fun _ => 0) (fun j => if j < 2 then 4096 else 1808)
      (fun j => decide (1 ≤ j)) 0 10000 0 0 0 = ⟨4096, 1, 0⟩
  ∧ rwE2FLoop (fun _ => 0) (fun j => if j < 2 then 4096 else 1808)
      (fun _ => false) 0 10000 0 0 0 = ⟨10000, 3, 0⟩
  ∧ (0 : Int) = 0 := by
  refine ⟨?_, ?_, rfl⟩
  · have h := rwE2FLoop_full_steps (fun _ => 0) (fun j => if j < 2 then 4096 else 1808)
      (fun j => decide (1 ≤ j)) 1 0 10000 0 0 (by decide) (by decide) (by decide)
      (by norm_num)
    refine h.trans ?_
    simp only [Nat.zero_add]
    have h2 := rwE2FLoop_exit (fun _ => 0) (fun j => if j < 2 then 4096 else 1808)
      (fun j => decide (1 ≤ j)) 1 (10000 - 1 * 4096) 0 (1 * 4096) 1
      (Or.inr (Or.inr (by decide)))
    exact h2.trans (by decide)
  · have h := rwE2FLoop_success_general (fun _ => 0) (fun j => if j < 2 then 4096 else 1808)
      (fun _ => false) 2 0 10000 0 0 (by decide) (by decide) (by decide)
      (by norm_num) (by norm_num) (by decide)
    exact h.trans (by decide)

/-- C7 (amended): in the device→sink direction only a negative primitive
return is treated as a failure: a negative EEPROM read or sink write at
chunk `k` (after `k` fully successful chunks) stops the loop at once — no
later chunk starts, the transfer returns -1 and the partial progress is
kept.  A short but non-negative transfer count is NOT detected: the chunk
is counted as fully moved (the remaining count drops by the full requested
size) and the loop continues. -/
theorem rwE2FLoop_neg_failure (er fw : Nat → Int) (ab : Nat → Bool) (k left : Nat)
    (hab : ∀ j, j ≤ k → ab j = false)
    (her : ∀ j, j < k → 0 ≤ er j) (hfw : ∀ j, j < k → fw j = 4096)
    (hlt : k * 4096 + 4096 ≤ left) :
    ((er k < 0 ∨ (0 ≤ er k ∧ fw k < 0)) →
      rwE2FLoop er fw ab 0 left 0 0 0 = ⟨k * 4096, k + 1, -1⟩)
  ∧ (0 ≤ er k → 0 ≤ fw k →
      rwE2FLoop er fw ab 0 left 0 0 0 =
        rwE2FLoop er fw ab (k + 1) (left - k * 4096 - 4096) 0
          (k * 4096 + (fw k).toNat) (k + 1)) := by
  have h := rwE2FLoop_full_steps er fw ab k 0 left 0 0
    (fun j hj => by simpa using hab j (Nat.le_of_lt hj))
    (fun j hj => by simpa using her j hj)
    (fun j hj => by simpa using hfw j hj) (by omega)
  constructor
  · intro hfail
    refine h.trans ?_
    simp only [Nat.zero_add]
    exact rwE2FLoop_fail_step er fw ab k (left - k * 4096) (k * 4096) k
      (hab k (Nat.le_refl k)) (by omega) hfail
  · intro h1 h2
    refine h.trans ?_
    simp only [Nat.zero_add]
    exact rwE2FLoop_step er fw ab k (left - k * 4096) (k * 4096) k
      (hab k (Nat.le_refl k)) (by omega) h1 h2

/-- C7 witness: a negative sink write at the first chunk of an 8192-byte
transfer stops the loop with return value -1 and nothing committed. -/
theorem rwE2FLoop_neg_failure_witness :
    rwE2FLoop (fun _ => 0) (fun j => if j = 0 then -1 else 4096)
      (fun _ => false) 0 8192 0 0 0 = ⟨0, 1, -1⟩ := by
  have h := (rwE2FLoop_neg_failure (fun _ => 0) (fun j => if j = 0 then -1 else 4096)
    (fun _ => false) 0 8192 (by decide) (by decide) (by decide) (by norm_num)).1
    (Or.inr ⟨by decide, by decide⟩)
  exact h.trans (by decide)

/-- C7 counterexample: a short (non-negative) sink write — 4095 of the
4096 requested bytes — is not treated as a failure: the chunk is counted
as fully moved, the next chunk still runs, and the whole 8192-byte
transfer returns 0 (success), not an I/O failure. -/
theorem rwE2FLoop_short_write_not_failure :
    rwE2FLoop (fun _ => 0) (fun j => if j = 0 then 4095 else 4096)
      (fun _ => false) 0 8192 0 0 0 = ⟨8191, 2, 0⟩ := by
  have h1 := rwE2FLoop_step (fun _ => 0) (fun j => if j = 0 then 4095 else 4096)
    (fun _ => false) 0 8192 0 0 rfl (by norm_num) (by norm_num) (by norm_num)
  norm_num at h1
  have h2 := rwE2FLoop_success_general (fun _ => 0) (fun j => if j = 0 then 4095 else 4096)
    (fun _ => false) 0 1 4096 4095 1 (by decide) (by decide) (by decide)
    (by norm_num) (by norm_num) (by decide)
  exact h1.trans (h2.trans (by decide))

theorem pad_eeprom_spec (pw : Nat → Int) (hpw : ∀ m, 0 ≤ pw m) (left : Nat) :
    ∀ j, (pad_eeprom pw j left).1.sum = left
      ∧ (∀ c ∈ (pad_eeprom pw j left).1, 0 < c ∧ c ≤ 64)
      ∧ (pad_eeprom pw j left).2 = 0 := by
  induction left using Nat.strong_induction_on with
  | _ left ih =>
    intro j
    by_cases h0 : left = 0
    · subst h0
      rw [pad_eeprom]
      simp
    · have hnm : ¬ pw j < 0 := not_lt.mpr (hpw j)
      have heq : pad_eeprom pw j left =
          (min 64 left :: (pad_eeprom pw (j + 1) (left - min 64 left)).1,
            (pad_eeprom pw (j + 1) (left - min 64 left)).2) := by
        rw [pad_eeprom]
        simp only [dif_neg h0, if_neg hnm]
      have hlt : left - min 64 left < left := by omega
      have hrec := ih (left - min 64 left) hlt (j + 1)
      rw [heq]
      refine ⟨?_, ?_, hrec.2.2⟩
      · simp only [List.sum_cons, hrec.1]
        omega
      · intro c hc
        rcases List.mem_cons.mp hc with rfl | hc
        · constructor <;> omega
        · exact hrec.2.1 c hc

theorem rwF2ELoop_exit (fr ew pw : Nat → Int) (ab : Nat → Bool) (zp : Bool)
    (i left : Nat) (ret : Int) (dev chunks : Nat)
    (h : left = 0 ∨ ret ≠ 0 ∨ ab i = true) :
    rwF2ELoop fr ew pw ab zp i left ret dev chunks = ⟨dev, [], chunks, ret⟩ := by
  rw [rwF2ELoop, dif_pos h]

theorem rwF2ELoop_full_step (fr ew pw : Nat → Int) (ab : Nat → Bool) (zp : Bool)
    (i left dev chunks : Nat) (hab : ab i = false) (hl : 4096 ≤ left)
    (hfr : fr i = 4096) (hew : 0 ≤ ew i) :
    rwF2ELoop fr ew pw ab zp i left 0 dev chunks =
      rwF2ELoop fr ew pw ab zp (i + 1) (left - 4096) 0 (dev + 4096) (chunks + 1) := by
  have hg : ¬(left = 0 ∨ (0 : Int) ≠ 0 ∨ ab i = true) := by
    simp [hab]
    omega
  have hmin : min left 4096 = 4096 := by omega
  have hfrn : ¬ fr i < 0 := by rw [hfr]; norm_num
  have htn : (fr i).toNat = 4096 := by rw [hfr]; rfl
  rw [rwF2ELoop, dif_neg hg]
  simp only [hmin, htn, if_neg hfrn, if_neg (not_lt.mpr hew), if_pos rfl,
    eq_self_iff_true, if_true]

theorem rwF2ELoop_short_read (fr ew pw : Nat → Int) (ab : Nat → Bool)
    (i left dev chunks : Nat) (hab : ab i = false) (hl0 : left ≠ 0)
    (hfr : 0 ≤ fr i) (hshort : (fr i).toNat ≠ min left 4096) (hew : 0 ≤ ew i) :
    (rwF2ELoop fr ew pw ab true i left 0 dev chunks =
      ⟨dev + (fr i).toNat, (pad_eeprom pw 0 (left - (fr i).toNat)).1, chunks + 1,
        (pad_eeprom pw 0 (left - (fr i).toNat)).2⟩)
  ∧ (rwF2ELoop fr ew pw ab false i left 0 dev chunks =
      ⟨dev + (fr i).toNat, [], chunks + 1, 0⟩) := by
  have hg : ¬(left = 0 ∨ (0 : Int) ≠ 0 ∨ ab i = true) := by
    simp [hab, hl0]
  constructor
  · rw [rwF2ELoop, dif_neg hg]
    simp [if_neg (not_lt.mpr hfr), if_neg (not_lt.mpr hew), if_neg hshort]
  · rw [rwF2ELoop, dif_neg hg]
    simp [if_neg (not_lt.mpr hfr), if_neg (not_lt.mpr hew), if_neg hshort]

set_option maxRecDepth 4000 in
theorem rwF2ELoop_full_steps (fr ew pw : Nat → Int) (ab : Nat → Bool) (zp : Bool) :
    ∀ (k i left dev chunks : Nat),
    (∀ j, j < k → ab (i + j) = false) →
    (∀ j, j < k → fr (i + j) = 4096) →
    (∀ j, j < k → 0 ≤ ew (i + j)) →
    k * 4096 < left →
    rwF2ELoop fr ew pw ab zp i left 0 dev chunks =
      rwF2ELoop fr ew pw ab zp (i + k) (left - k * 4096) 0 (dev + k * 4096) (chunks + k)
  | 0, i, left, dev, chunks, _, _, _, _ => by simp
  | (k + 1), i, left, dev, chunks, hab, hfr, hew, hlt => by
    have hab0 : ab i = false := by simpa using hab 0 (Nat.succ_pos k)
    have hfr0 : fr i = 4096 := by simpa using hfr 0 (Nat.succ_pos k)
    have hew0 : 0 ≤ ew i := by simpa using hew 0 (Nat.succ_pos k)
    have hstep := rwF2ELoop_full_step fr ew pw ab zp i left dev chunks hab0
      (by omega) hfr0 hew0
    rw [hstep]
    have ih := rwF2ELoop_full_steps fr ew pw ab zp k (i + 1) (left - 4096)
      (dev + 4096) (chunks + 1)
      (fun j hj => by
        rw [show i + 1 + j = i + (j + 1) by omega]
        exact hab (j + 1) (Nat.succ_lt_succ hj))
      (fun j hj => by
        rw [show i + 1 + j = i + (j + 1) by omega]
        exact hfr (j + 1) (Nat.succ_lt_succ hj))
      (fun j hj => by
        rw [show i + 1 + j = i + (j + 1) by omega]
        exact hew (j + 1) (Nat.succ_lt_succ hj))
      (by omega)
    have e1 : i + 1 + k = i + (k + 1) := by omega
    have e2 : left - 4096 - k * 4096 = left - (k + 1) * 4096 := by omega
    have e3 : dev + 4096 + k * 4096 = dev + (k + 1) * 4096 := by omega
    have e4 : chunks + 1 + k = chunks + (k + 1) := by omega
    rw [e1, e2, e3, e4] at ih
    exact ih

/-- C5: in a source→device transfer whose first `k` chunks were read in
full, if the source read of chunk `k` returns fewer bytes than the
requested chunk size, then with zero padding enabled exactly the bytes
actually read are written to the device followed by exactly
`total - bytes_moved` zero bytes — no more, no less — the zeros going out
in chunks of at most 64 bytes, and the transfer ends with return value 0;
with zero padding disabled the transfer stops early at the bytes actually
moved and reports success (0), not an error. -/
theorem rwF2ELoop_zero_padding (fr ew pw : Nat → Int) (ab : Nat → Bool)
    (k total : Nat)
    (hab : ∀ j, j ≤ k → ab j = false)
    (hfr : ∀ j, j < k → fr j = 4096) (hew : ∀ j, j ≤ k → 0 ≤ ew j)
    (hlt : k * 4096 < total)
    (hfrk : 0 ≤ fr k) (hshort : (fr k).toNat < min (total - k * 4096) 4096)
    (hpw : ∀ m, 0 ≤ pw m) :
    ((rwF2ELoop fr ew pw ab true 0 total 0 0 0).devBytes = k * 4096 + (fr k).toNat
      ∧ (rwF2ELoop fr ew pw ab true 0 total 0 0 0).padChunks.sum =
          total - (k * 4096 + (fr k).toNat)
      ∧ (∀ c ∈ (rwF2ELoop fr ew pw ab true 0 total 0 0 0).padChunks, 0 < c ∧ c ≤ 64)
      ∧ (rwF2ELoop fr ew pw ab true 0 total 0 0 0).chunks = k + 1
      ∧ (rwF2ELoop fr ew pw ab true 0 total 0 0 0).ret = 0)
  ∧ rwF2ELoop fr ew pw ab false 0 total 0 0 0 =
      ⟨k * 4096 + (fr k).toNat, [], k + 1, 0⟩ := by
  have hshort2 : (fr k).toNat ≠ min (total - k * 4096) 4096 := Nat.ne_of_lt hshort
  have hl0 : total - k * 4096 ≠ 0 := by omega
  have hsr := rwF2ELoop_short_read fr ew pw ab k (total - k * 4096) (k * 4096) k
    (hab k (Nat.le_refl k)) hl0 hfrk hshort2 (hew k (Nat.le_refl k))
  have hpad := pad_eeprom_spec pw hpw (total - k * 4096 - (fr k).toNat) 0
  constructor
  · have h := rwF2ELoop_full_steps fr ew pw ab true k 0 total 0 0
      (fun j hj => by simpa using hab j (Nat.le_of_lt hj))
      (fun j hj => by simpa using hfr j hj)
      (fun j hj => by simpa using hew j (Nat.le_of_lt hj)) hlt
    simp only [Nat.zero_add] at h
    rw [h, hsr.1]
    refine ⟨rfl, ?_, hpad.2.1, rfl, hpad.2.2⟩
    rw [hpad.1]
    omega
  · have h := rwF2ELoop_full_steps fr ew pw ab false k 0 total 0 0
      (fun j hj => by simpa using hab j (Nat.le_of_lt hj))
      (fun j hj => by simpa using hfr j hj)
      (fun j hj => by simpa using hew j (Nat.le_of_lt hj)) hlt
    simp only [Nat.zero_add] at h
    rw [h, hsr.2]

/-- C5 witness: a 1000-byte source into a 2000-byte job: 1000 real bytes,
then exactly 1000 zero bytes in chunks of at most 64; without padding the
transfer stops at 1000 bytes with return value 0. -/
theorem rwF2ELoop_zero_padding_witness :
    ((rwF2ELoop (fun _ => 1000) (fun _ => 0) (fun _ => 0) (fun _ => false)
        true 0 2000 0 0 0).devBytes = 0 * 4096 + ((1000 : Int)).toNat
      ∧ (rwF2ELoop (fun _ => 1000) (fun _ => 0) (fun _ => 0) (fun _ => false)
          true 0 2000 0 0 0).padChunks.sum = 2000 - (0 * 4096 + ((1000 : Int)).toNat)
      ∧ (∀ c ∈ (rwF2ELoop (fun _ => 1000) (fun _ => 0) (fun _ => 0) (fun _ => false)
          true 0 2000 0 0 0).padChunks, 0 < c ∧ c ≤ 64)
      ∧ (rwF2ELoop (fun _ => 1000) (fun _ => 0) (fun _ => 0) (fun _ => false)
          true 0 2000 0 0 0).chunks = 0 + 1
      ∧ (rwF2ELoop (fun _ => 1000) (fun _ => 0) (fun _ => 0) (fun _ => false)
          true 0 2000 0 0 0).ret = 0)
  ∧ rwF2ELoop (fun _ => 1000) (fun _ => 0) (fun _ => 0) (fun _ => false)
      false 0 2000 0 0 0 = ⟨0 * 4096 + ((1000 : Int)).toNat, [], 0 + 1, 0⟩ :=
  rwF2ELoop_zero_padding (fun _ => 1000) (fun _ => 0) (fun _ => 0) (fun _ => false)
    0 2000 (by decide) (by decide) (by decide) (by norm_num) (by norm_num)
    (by norm_num) (fun m => Int.le_refl 0)

/-- The byte-compare loop of `full_rw_eeprom`: the index of the first
position where the read-back buffer differs from the written buffer
(`none` if no mismatch is found).  The loop breaks at the first
mismatch. -/
def find_mismatch : List Int → List Int → Option Nat
  | [], _ => none
  | _ :: _, [] => none
  | wb :: ws, rb :: rs =>
    if rb ≠ wb then some 0
    else (find_mismatch ws rs).map (fun n => n + 1)

/-- The dump window start computed at a mismatch at index `i`:
`(i > 128) ? (i - 128) : 0`. -/
def mismatch_dump_start (i : Nat) : Nat := if i > 128 then i - 128 else 0

/-- `dump_size = min(256, data_size)`: the number of bytes of each buffer
dumped for inspection. -/
def dump_size (data_size : Nat) : Nat := min 256 data_size

/-- The return value of `full_rw_eeprom` given the EEPROM write result,
the read result, the written buffer and the read-back buffer: -1 if the
write failed, the read failed or a mismatch was found, 0 otherwise. -/
def full_rw_eeprom (wRes rRes : Int) (w r : List Int) : Int :=
  let ret1 : Int := if wRes < 0 then -1 else 0
  let ret2 : Int := if rRes < 0 then -1 else ret1
  match find_mismatch w r with
  | some _ => -1
  | none => ret2

theorem find_mismatch_none_iff : ∀ (w r : List Int), w.length = r.length →
    (find_mismatch w r = none ↔ w = r)
  | [], [], _ => by simp [find_mismatch]
  | [], _ :: _, h => by simp at h
  | _ :: _, [], h => by simp at h
  | (a :: ws), (b :: rs), h => by
    have ih := find_mismatch_none_iff ws rs (by simpa using h)
    by_cases hb : b = a
    · subst hb
      simp [find_mismatch, ih]
    · have hb2 : a ≠ b := fun hx => hb hx.symm
      simp [find_mismatch, hb, hb2]

theorem find_mismatch_first : ∀ (w r : List Int) (i : Nat),
    find_mismatch w r = some i →
    w.get? i ≠ r.get? i ∧ ∀ j, j < i → w.get? j = r.get? j
  | [], r, i, h => by simp [find_mismatch] at h
  | _ :: _, [], i, h => by simp [find_mismatch] at h
  | (a :: ws), (b :: rs), i, h => by
    by_cases hb : b = a
    · subst hb
      rw [find_mismatch, if_neg (by simp)] at h
      rcases Option.map_eq_some'.mp h with ⟨n, hn, hni⟩
      subst hni
      have ih := find_mismatch_first ws rs n hn
      constructor
      · simpa using ih.1
      · intro j hj
        cases j with
        | zero => simp
        | succ j => simpa using ih.2 j (Nat.lt_of_succ_lt_succ hj)
    · rw [find_mismatch, if_pos hb] at h
      obtain rfl : (0 : Nat) = i := Option.some.inj h
      refine ⟨?_, fun j hj => absurd hj (Nat.not_lt_zero j)⟩
      simp only [List.get?_cons_zero, ne_eq, Option.some.injEq]
      exact fun hx => hb hx.symm

/-- C6: in the self-test, the comparison of the written and read-back
buffers stops at the first index `i` where they differ; the diagnostic
dump window starts at `max 0 (i - 128)` and covers `min 256 data_size`
(at most 256) bytes of both buffers; the reported mismatch offset is
exactly `i`; and if the buffers agree at every index (and the write and
read primitives succeeded), the self-test reports success (0). -/
theorem full_rw_eeprom_compare_spec (w r : List Int) (wRes rRes : Int)
    (hlen : w.length = r.length) :
    (find_mismatch w r = none ↔ w = r)
  ∧ (∀ i, find_mismatch w r = some i →
      w.get? i ≠ r.get? i
      ∧ (∀ j, j < i → w.get? j = r.get? j)
      ∧ ((mismatch_dump_start i : Int) = max 0 ((i : Int) - 128)
      ∧ dump_size w.length ≤ 256))
  ∧ (w = r → 0 ≤ wRes → 0 ≤ rRes → full_rw_eeprom wRes rRes w r = 0) := by
  refine ⟨find_mismatch_none_iff w r hlen, ?_, ?_⟩
  · intro i hi
    refine ⟨(find_mismatch_first w r i hi).1, (find_mismatch_first w r i hi).2, ?_, ?_⟩
    · simp only [mismatch_dump_start]
      split <;> omega
    · exact Nat.min_le_left 256 w.length
  · intro heq hw hr
    have hnone : find_mismatch w r = none := (find_mismatch_none_iff w r hlen).mpr heq
    simp [full_rw_eeprom, hnone, not_lt.mpr hw, not_lt.mpr hr]

/-- C6 witness: buffers differing first at index 2, and equal buffers give
a successful self-test. -/
theorem full_rw_eeprom_compare_spec_witness :
    (find_mismatch [5, 6, 7] [5, 6, 9] = some 2 →
      ([5, 6, 7] : List Int).get? 2 ≠ ([5, 6, 9] : List Int).get? 2
      ∧ (∀ j, j < 2 → ([5, 6, 7] : List Int).get? j = ([5, 6, 9] : List Int).get? j)
      ∧ ((mismatch_dump_start 2 : Int) = max 0 ((2 : Int) - 128)
      ∧ dump_size ([5, 6, 7] : List Int).length ≤ 256))
  ∧ find_mismatch [5, 6, 7] [5, 6, 9] = some 2
  ∧ full_rw_eeprom 0 0 [5, 6, 7] [5, 6, 7] = 0 :=
  ⟨(full_rw_eeprom_compare_spec [5, 6, 7] [5, 6, 9] 0 0 (by decide)).2.1 2,
    by decide,
    (full_rw_eeprom_compare_spec [5, 6, 7] [5, 6, 7] 0 0 (by decide)).2.2 rfl
      (by decide) (by decide)⟩

/-- The data-size resolution of `run_eeprom`: a zero requested size is
replaced by the EEPROM capacity; a size larger than the capacity is
rejected (`return -1`); anything else passes through. -/
def resolve_data_size (data_size esize : Nat) : Option Nat :=
  if data_size = 0 then some esize
  else if esize < data_size then none
  else some data_size

/-- `log_eeprom_progress`: the percentage printed for a transfer of
`total` bytes with `rem` bytes still to move: `(total - rem) * 100 /
total` in integer arithmetic. -/
def log_eeprom_progress (total rem : Nat) : Nat := (total - rem) * 100 / total

/-- C8 counterexample: a zero data size is not rejected before the loop:
with an EEPROM capacity of 1000 it resolves to the full capacity and the
job proceeds. -/
theorem resolve_data_size_zero_not_rejected :
    resolve_data_size 0 1000 = some 1000 ∧ resolve_data_size 0 1000 ≠ none := by
  decide

/-- C8 (amended): a zero requested size is replaced by the EEPROM capacity
(not rejected); every size that passes resolution is positive whenever the
capacity is positive and never exceeds the capacity, so the loop's
progress computation divides by a positive total; the reported percentage
is the integer floor of `bytes_moved * 100 / total_size` — exactly 25 at
2500 of 10000 bytes. -/
theorem run_eeprom_progress_spec :
    (∀ esize, resolve_data_size 0 esize = some esize)
  ∧ (∀ ds esize t, resolve_data_size ds esize = some t →
      0 < esize → 0 < t ∧ t ≤ esize)
  ∧ (∀ total rem, 0 < total →
      log_eeprom_progress total rem * total ≤ (total - rem) * 100
      ∧ (total - rem) * 100 < (log_eeprom_progress total rem + 1) * total)
  ∧ log_eeprom_progress 10000 7500 = 25 := by
  refine ⟨?_, ?_, ?_, by decide⟩
  · intro esize
    simp [resolve_data_size]
  · intro ds esize t h hpos
    by_cases h0 : ds = 0
    · subst h0
      simp [resolve_data_size] at h
      omega
    · by_cases h1 : esize < ds
      · simp [resolve_data_size, h0, h1] at h
      · simp [resolve_data_size, h0, h1] at h
        omega
  · intro total rem htotal
    simp only [log_eeprom_progress]
    have h1 := Nat.div_add_mod ((total - rem) * 100) total
    have h2 := Nat.mod_lt ((total - rem) * 100) htotal
    refine ⟨Nat.div_mul_le_self _ _, ?_⟩
    calc (total - rem) * 100
        = total * ((total - rem) * 100 / total) + (total - rem) * 100 % total :=
          h1.symm
      _ < total * ((total - rem) * 100 / total) + total := by omega
      _ = ((total - rem) * 100 / total + 1) * total := by ring

/-- C8 witness: concrete instances of the amended statement: capacity 1000
resolves a zero size to 1000; size 100 within capacity 1000 passes with a
positive value; the floor bounds and the exact 25% at 2500 of 10000. -/
theorem run_eeprom_progress_spec_witness :
    resolve_data_size 0 1000 = some 1000
  ∧ (0 < 100 ∧ 100 ≤ 1000)
  ∧ (log_eeprom_progress 10000 7500 * 10000 ≤ (10000 - 7500) * 100
      ∧ (10000 - 7500) * 100 < (log_eeprom_progress 10000 7500 + 1) * 10000)
  ∧ log_eeprom_progress 10000 7500 = 25 :=
  ⟨run_eeprom_progress_spec.1 1000,
    run_eeprom_progress_spec.2.1 100 1000 100 (by decide) (by decide),
    run_eeprom_progress_spec.2.2.1 10000 7500 (by decide),
    run_eeprom_progress_spec.2.2.2⟩
